import Mathlib

/-! Shallow embedding of the resume parser's section-aware line segmentation
engine (`backend/parser_utils.py`), together with a verification of its
documented behaviour.

Strings are modelled as Lean `String` (a list of characters); the regular
expressions of the source are unfolded into explicit character-list scanners
with the same matching semantics on the engine's input alphabet (the heuristics
assume Latin-script text, and the ASCII readings of `\w`, `\s`, `isupper`,
`islower`, `lower` used below agree with Python's on that alphabet).
Python's float comparison `titleish / sig >= 0.6` is modelled exactly by the
guarded integer inequality `3 * sig <= 5 * titleish`: for the reachable range
`sig <= 10` the rounded double quotients are on the same side of `0.6`
(the IEEE double nearest `3/5` is the literal `0.6`), and the guard `sig`
mirrors the short-circuit `sig and ...` that protects the division.
The one syntactically unguarded list write of the source
(`merged[-1] = ... if merged else text` in the experience branch, which raises
`IndexError` when `merged` is empty) is modelled as an `Option` failure, so
that totality is a provable statement rather than an artifact of the
embedding. -/

/-! ## Character helpers (Python str methods on the engine's alphabet) -/

def isWs (c : Char) : Bool := c.isWhitespace

def isWordChar (c : Char) : Bool := c.isAlphanum || c == '_'

def toLowerL (l : List Char) : List Char := l.map Char.toLower

def trimL (l : List Char) : List Char := ((l.dropWhile isWs).reverse.dropWhile isWs).reverse

def rstripL (l : List Char) : List Char := (l.reverse.dropWhile isWs).reverse

def trimS (s : String) : String := ⟨trimL s.data⟩

def rstripS (s : String) : String := ⟨rstripL s.data⟩

/-- Python `str.isupper`: at least one cased character and no lowercase one. -/
def pyIsUpper (l : List Char) : Bool :=
  l.any Char.isAlpha && l.all (fun c => !c.isAlpha || c.isUpper)

/-- Python `str.islower`: at least one cased character and no uppercase one. -/
def pyIsLower (l : List Char) : Bool :=
  l.any Char.isAlpha && l.all (fun c => !c.isAlpha || c.isLower)

/-- Split on whitespace runs, dropping empty pieces: the behaviour of
`re.split(r'\s+', t)` on stripped input and of the source's
`[w for w in re.split(r'\s+', t) if w]`. -/
def splitWsAux : List Char → List Char → List (List Char)
  | [], cur => if cur.isEmpty then [] else [cur.reverse]
  | c :: rest, cur =>
    if isWs c then
      if cur.isEmpty then splitWsAux rest [] else cur.reverse :: splitWsAux rest []
    else splitWsAux rest (c :: cur)

def splitWsL (l : List Char) : List (List Char) := splitWsAux l []

/-- Python `" ".join`. -/
def joinWsL : List (List Char) → List Char
  | [] => []
  | [w] => w
  | w :: v :: rest => w ++ ' ' :: joinWsL (v :: rest)

/-! ## The source's regular expressions, as explicit scanners -/

def sentencePunct (c : Char) : Bool :=
  c == '.' || c == '!' || c == '?' || c == ':' || c == ';' || c == ','

/-- Python `t.endswith(('.', '!', '?', ':', ';', ','))`. -/
def endsSentencePunct (l : List Char) : Bool :=
  match l.getLast? with
  | some c => sentencePunct c
  | none => false

/-- `BULLET_RE = ^[•\-–—*]\s+` (anchored match). -/
def matchSymBullet : List Char → Bool
  | c :: d :: _ => (c == '•' || c == '-' || c == '–' || c == '—' || c == '*') && isWs d
  | _ => false

def headIsWs : List Char → Bool
  | c :: _ => isWs c
  | [] => false

/-- After at least one digit of `NUM_BULLET_RE`: remaining digits, then one of
`.`, `)`, `]`, then whitespace. -/
def numTail : List Char → Bool
  | c :: rest =>
    if c.isDigit then numTail rest
    else (c == '.' || c == ')' || c == ']') && headIsWs rest
  | [] => false

/-- `NUM_BULLET_RE = ^\(?\d+[.\)\]]\s+` (anchored match). -/
def matchNumBullet : List Char → Bool
  | '(' :: c :: rest => c.isDigit && numTail rest
  | c :: rest => c.isDigit && numTail rest
  | [] => false

/-- A `\b` word boundary right before this remainder (whose previous character
is a word character). -/
def headerBoundary : List Char → Bool
  | [] => true
  | c :: _ => !isWordChar c

/-- The common shape of the three header regexes
`^\s*(alt1|alt2|...)\b.*$` with `re.I`: skip leading whitespace, then one of
the (lowercase) vocabulary alternatives case-insensitively, then a word
boundary; trailing text is free. -/
def matchesVocabCI (vocab : List String) (text : String) : Bool :=
  let t := toLowerL (text.data.dropWhile isWs)
  vocab.any fun v => t.take v.data.length == v.data && headerBoundary (t.drop v.data.length)

def EXPERIENCE_VOCAB : List String := ["experience", "work experience", "professional experience"]

def PROJECTS_VOCAB : List String := ["projects", "project experience", "personal projects"]

/-- `OTHER_HEADERS` with the optional plural markers `s?` expanded. -/
def OTHER_VOCAB : List String :=
  ["education", "skills", "certification", "certifications", "award", "awards",
   "publication", "publications", "summary", "contact", "achievement", "achievements"]

def matches_experience_headers (text : String) : Bool := matchesVocabCI EXPERIENCE_VOCAB text

def matches_projects_headers (text : String) : Bool := matchesVocabCI PROJECTS_VOCAB text

def matches_other_headers (text : String) : Bool := matchesVocabCI OTHER_VOCAB text

/-- `MONTH_RE` with the optional long forms expanded (case sensitive, as in the
source where `DATE_RE` carries no `re.I`). -/
def MONTH_FORMS : List String :=
  ["Jan", "January", "Feb", "February", "Mar", "March", "Apr", "April", "May",
   "Jun", "June", "Jul", "July", "Aug", "August", "Sep", "Sept", "September",
   "Oct", "October", "Nov", "November", "Dec", "December"]

/-- `\b(19|20)\d{2}\b` anchored at the head of the remainder (the boundary
before it is checked by the caller). -/
def yearAtHead : List Char → Bool
  | a :: b :: c :: d :: rest =>
    ((a == '1' && b == '9') || (a == '2' && b == '0')) && c.isDigit && d.isDigit
      && headerBoundary rest
  | _ => false

/-- Search for `\b(19|20)\d{2}\b`, threading whether the previous character was
a word character (for the leading `\b`). -/
def searchYear : Bool → List Char → Bool
  | _, [] => false
  | prev, c :: rest => (!prev && yearAtHead (c :: rest)) || searchYear (isWordChar c) rest

/-- A month form at the head of the remainder, followed by `\b` and, later,
a year: the tail of `DATE_RE` after its leading `\b`. -/
def monthYearAtHead (l : List Char) : Bool :=
  MONTH_FORMS.any fun m =>
    l.take m.data.length == m.data && headerBoundary (l.drop m.data.length)
      && searchYear true (l.drop m.data.length)

/-- `DATE_RE.search`: `\bMONTH\b.*?\b(19|20)\d{2}\b` somewhere in the line. -/
def searchDate : Bool → List Char → Bool
  | _, [] => false
  | prev, c :: rest => (!prev && monthYearAtHead (c :: rest)) || searchDate (isWordChar c) rest

/-- `RANGE_RE.search`: `\s-\s` somewhere in the line. -/
def searchRange : List Char → Bool
  | a :: rest =>
    (match rest with
     | b :: c :: _ => isWs a && b == '-' && isWs c
     | _ => false) || searchRange rest
  | [] => false

def ROLE_VOCAB : List String :=
  ["engineer", "developer", "scientist", "analyst", "manager", "consultant",
   "architect", "administrator"]

/-- One of the role keywords at the head of the remainder, case-insensitively,
followed by `\b`. -/
def roleAtHead (l : List Char) : Bool :=
  ROLE_VOCAB.any fun v =>
    toLowerL (l.take v.data.length) == v.data && headerBoundary (l.drop v.data.length)

/-- `ROLE_RE.search` (whole-word, case-insensitive role keywords). -/
def searchRole : Bool → List Char → Bool
  | _, [] => false
  | prev, c :: rest => (!prev && roleAtHead (c :: rest)) || searchRole (isWordChar c) rest

/-- After the comma of `LOCATION_RE`: `\s*[A-Z]{2}(?:\b|,|\s)`. The trailer
alternatives collapse to "end of string or a non-word character". -/
def locAtHead (l : List Char) : Bool :=
  match l.dropWhile isWs with
  | a :: b :: rest => a.isUpper && b.isUpper && headerBoundary rest
  | _ => false

/-- `LOCATION_RE.search`: `,\s*[A-Z]{2}(?:\b|,|\s)` somewhere in the line. -/
def searchLocation : List Char → Bool
  | [] => false
  | c :: rest => (c == ',' && locAtHead rest) || searchLocation rest

def allcapsBody (c : Char) : Bool :=
  c.isUpper || c == ' ' || c == '&' || c == '-' || c == '.' || c == ',' || c == '/'
    || c == '(' || c == ')'

/-- `ALLCAPS_RE.match`: `^[A-Z][A-Z &\-.,/()]+$`. -/
def matchAllCaps : List Char → Bool
  | c :: rest => c.isUpper && !rest.isEmpty && rest.all allcapsBody
  | [] => false

/-! ## The line classifier (`_is_bullet`, `_looks_like_job_header`,
`_looks_like_project_title`, `_word_count`) -/

def is_bullet (text : String) : Bool := matchSymBullet text.data || matchNumBullet text.data

def looks_like_job_header (text : String) : Bool :=
  searchDate false text.data || searchRange text.data || searchRole false text.data
    || searchLocation text.data || matchAllCaps text.data

def SMALL_WORDS : List (List Char) :=
  (["and", "for", "of", "to", "in", "with", "on", "the", "a", "an", "&"]).map String.data

def wordPunct (c : Char) : Bool :=
  c == '.' || c == ',' || c == ':' || c == ';' || c == '(' || c == ')' || c == '[' || c == ']'

/-- Python `w.strip(".,:;()[]")`. -/
def stripWordPunct (l : List Char) : List Char :=
  ((l.dropWhile wordPunct).reverse.dropWhile wordPunct).reverse

/-- The source's small-word test: `w.lower().strip(".,:;()[]") in SMALL_WORDS`. -/
def isSmallWordC (w : List Char) : Bool := SMALL_WORDS.contains (stripWordPunct (toLowerL w))

/-- The capitalized-token pattern `re.match` of the source: an uppercase letter
then at least one word character, ampersand, hyphen or slash, consuming the
whole word. -/
def matchCapToken : List Char → Bool
  | c :: rest =>
    c.isUpper && !rest.isEmpty && rest.all (fun d => isWordChar d || d == '&' || d == '-' || d == '/')
  | [] => false

/-- The source's title-cased word test: `w.isupper()`, or
`w[:1].isupper() and w[1:].islower()`, or the capitalized-token pattern. -/
def isTitleCaseWord (w : List Char) : Bool :=
  pyIsUpper w
    || ((match w with | c :: _ => c.isUpper | [] => false) && pyIsLower (w.drop 1))
    || matchCapToken w

/-- The source's counting loop: `(sig, titleish)` over the words, skipping
small words. -/
def titleCounts : List (List Char) → Nat × Nat
  | [] => (0, 0)
  | w :: rest =>
    if isSmallWordC w then titleCounts rest
    else ((titleCounts rest).1 + 1, (titleCounts rest).2 + (if isTitleCaseWord w then 1 else 0))

def looks_like_project_title (text : String) : Bool :=
  let t := trimL text.data
  if t.length < 2 || 120 < t.length then false
  else if endsSentencePunct t then false
  else
    let ws := splitWsL t
    if !(decide (1 ≤ ws.length) && decide (ws.length ≤ 10)) then false
    else
      let c := titleCounts ws
      decide (c.1 ≠ 0) && decide (3 * c.1 ≤ 5 * c.2)

def word_count (text : String) : Nat := (splitWsL (trimL text.data)).length

/-! ## The trailing-title splitter (`_split_trailing_title_if_any`) -/

def joinTokens (ts : List String) : String := ⟨joinWsL (ts.map String.data)⟩

/-- `re.split(r'\s+', text.strip())` as used by the splitter. (On all-blank
input Python returns `['']` where this returns `[]`; both make the candidate
window below empty, so the two agree behaviourally.) -/
def pyTokens (text : String) : List String :=
  (splitWsL (trimL text.data)).map (fun l => (⟨l⟩ : String))

/-- `" ".join(tokens[:start]).rstrip()`. -/
def tokPfx (toks : List String) (s : Nat) : String := rstripS (joinTokens (toks.take s))

/-- `" ".join(tokens[start:])`. -/
def tokCand (toks : List String) (s : Nat) : String := joinTokens (toks.drop s)

/-- The splitter's acceptance test at one candidate start:
`prefix and _looks_like_project_title(candidate)`. -/
def splitQualifies (toks : List String) (s : Nat) : Bool :=
  decide (tokPfx toks s ≠ "") && looks_like_project_title (tokCand toks s)

/-- The splitter's scan: `for start in range(a, a + k)`, returning at the first
qualifying candidate start. -/
def splitGo (text : String) (toks : List String) : Nat → Nat → String × Option String
  | _, 0 => (text, none)
  | s, k + 1 =>
    if splitQualifies toks s then (tokPfx toks s, some (tokCand toks s))
    else splitGo text toks (s + 1) k

/-- `_split_trailing_title_if_any`: scan starts
`range(max(0, len(tokens) - 10), len(tokens) - 1)` (natural subtraction
implements the `max(0, ...)` clamp). -/
def split_trailing_title_if_any (text : String) : String × Option String :=
  let toks := pyTokens text
  let n := toks.length
  let a := n - 10
  splitGo text toks a (n - 1 - a)

/-! ## The section-aware merge pass of `split_and_merge` -/

/-- The scan state `section` (`None` | `'exp'` | `'proj'`). -/
inductive Sect
  | nosect
  | exp
  | proj
deriving DecidableEq, Repr

/-- The bullet arm of the merge loop: bullets always start new items; under
the projects section a trailing title is split off. -/
def bulletBranch (merged : List String) (sect : Sect) (text : String) : List String :=
  if sect == Sect.proj then
    match split_trailing_title_if_any text with
    | (main, some t) => merged ++ [main, t]
    | (main, none) => merged ++ [main]
  else merged ++ [text]

/-- The projects-section arm for a non-bullet, non-header line
(`last = merged[-1] if merged else \'\'` together with the
`if not merged or PROJECTS_HEADERS.match(last)` guard becomes the `getLast?`
match). -/
def projBranch (merged : List String) (text : String) : List String :=
  match merged.getLast? with
  | none => merged ++ [text]
  | some last =>
    if matches_projects_headers last then merged ++ [text]
    else if is_bullet last then
      match split_trailing_title_if_any text with
      | (pfx, some t) =>
        merged.dropLast ++ [rstripS last ++ (if pfx ≠ "" then " " ++ pfx else "")] ++ [t]
      | (_, none) => merged.dropLast ++ [rstripS last ++ " " ++ text]
    else if looks_like_project_title text then merged ++ [text]
    else merged.dropLast ++ [rstripS last ++ " " ++ text]

/-- The experience-section arm for a non-bullet, non-header line. The `none`
result models the `IndexError` that the source's
`merged[-1] = merged[-1].rstrip() + ' ' + text if merged else text` raises
when `merged` is empty (the conditional expression is the right-hand side of
an assignment whose target `merged[-1]` is evaluated regardless). -/
def expBranch (merged : List String) (text : String) : Option (List String) :=
  if looks_like_job_header text then some (merged ++ [text])
  else
    match merged.getLast? with
    | some last => some (merged.dropLast ++ [rstripS last ++ " " ++ text])
    | none => none

/-- One iteration of the merge loop of `split_and_merge`. -/
def pyStep (st : List String × Sect) (raw : String) : Option (List String × Sect) :=
  let merged := st.1
  let sect := st.2
  if raw == "" then some st
  else
    let text := trimS raw
    if text == "" then some st
    else if matches_experience_headers text then some (merged ++ [text], Sect.exp)
    else if matches_projects_headers text then some (merged ++ [text], Sect.proj)
    else if matches_other_headers text then some (merged ++ [text], Sect.nosect)
    else if is_bullet text then some (bulletBranch merged sect text, sect)
    else if sect == Sect.proj then some (projBranch merged text, sect)
    else if sect == Sect.exp then (expBranch merged text).map (fun m => (m, sect))
    else some (merged ++ [text], sect)

def mergePass (lines : List String) : Option (List String × Sect) :=
  lines.foldlM pyStep ([], Sect.nosect)

/-! ## The section splitter and the three repair passes -/

/-- The second scan of `split_and_merge`: headers switch the active bucket and
are consumed; other lines go to the active bucket, or nowhere. -/
def splitSectionsGo (cur : Sect) : List String → List String × List String
  | [] => ([], [])
  | line :: rest =>
    if matches_experience_headers line then splitSectionsGo Sect.exp rest
    else if matches_projects_headers line then splitSectionsGo Sect.proj rest
    else if matches_other_headers line then splitSectionsGo Sect.nosect rest
    else
      match cur with
      | Sect.exp => ((splitSectionsGo Sect.exp rest).1.cons line, (splitSectionsGo Sect.exp rest).2)
      | Sect.proj => ((splitSectionsGo Sect.proj rest).1, (splitSectionsGo Sect.proj rest).2.cons line)
      | Sect.nosect => splitSectionsGo Sect.nosect rest

def splitSections (merged : List String) : List String × List String :=
  splitSectionsGo Sect.nosect merged

/-- Repair pass 1: re-apply the trailing-title splitter to every project item. -/
def repair_pass1 : List String → List String
  | [] => []
  | item :: rest =>
    match split_trailing_title_if_any item with
    | (main, some t) => main :: t :: repair_pass1 rest
    | (main, none) => main :: repair_pass1 rest

/-- The merge condition of repair pass 2, as one predicate (the source's two
nested `if`s fall through to the same `else`). -/
def mergeable_titles (x y : String) : Bool :=
  looks_like_project_title x && looks_like_project_title y
    && decide (word_count x ≤ 4) && decide (word_count y ≤ 4)
    && decide (word_count (x ++ " " ++ y) ≤ 8)

/-- Repair pass 2: merge consecutive short titles, consuming both. -/
def repair_pass2 : List String → List String
  | [] => []
  | [x] => [x]
  | x :: y :: rest =>
    if mergeable_titles x y then trimS (x ++ " " ++ y) :: repair_pass2 rest
    else x :: repair_pass2 (y :: rest)

/-- A token of `FRAG_RE`: `[A-Z]{2,}` or `[A-Z][a-z]+`. -/
def isFragTok (w : List Char) : Bool :=
  (decide (2 ≤ w.length) && w.all Char.isUpper)
    || (match w with | c :: rest => c.isUpper && !rest.isEmpty && rest.all Char.isLower | [] => false)

def headNonWs : List Char → Bool
  | c :: _ => !isWs c
  | [] => false

def lastNonWs (l : List Char) : Bool :=
  match l.getLast? with
  | some c => !isWs c
  | none => false

/-- Whether a whole remainder is matched by `FRAG_RE` (which is anchored at the
end by `$`): one or two frag tokens separated by whitespace. -/
def fragMatchesWhole (l : List Char) : Bool :=
  headNonWs l && lastNonWs l
    && (let ts := splitWsL l
        (ts.length == 1 || ts.length == 2) && ts.all isFragTok)

/-- `FRAG_RE.search`: the leftmost start whose whole remainder matches, i.e.
the longest matching suffix. -/
def fragSearch : List Char → Option (List Char)
  | [] => none
  | c :: rest => if fragMatchesWhole (c :: rest) then some (c :: rest) else fragSearch rest

/-- Python `haystack.rfind(needle)` (`none` for `-1`). -/
def occursAt (hay needle : List Char) (i : Nat) : Bool := (hay.drop i).take needle.length == needle

def rfindAux (hay needle : List Char) : Nat → Option Nat
  | 0 => if occursAt hay needle 0 then some 0 else none
  | i + 1 => if occursAt hay needle (i + 1) then some (i + 1) else rfindAux hay needle i

def pyRfind (hay needle : List Char) : Option Nat := rfindAux hay needle hay.length

/-- Python `item[:p]` for the found index, and `item[:-1]` for `rfind = -1`. -/
def takeBeforeFound (item : List Char) (found : Option Nat) : List Char :=
  match found with
  | some p => item.take p
  | none => item.dropLast

def endsWithL (l suf : List Char) : Bool := l.drop (l.length - suf.length) == suf

/-- `trimmed.endswith((' -', '–', '—'))`. -/
def dashEnd (l : List Char) : Bool :=
  endsWithL l [' ', '-'] || endsWithL l ['–'] || endsWithL l ['—']

/-- `item.strip().endswith(('.', '!', '?', ':', ';', ','))`. -/
def endsPunctStripped (s : String) : Bool := endsSentencePunct (trimL s.data)

/-- Repair pass 3, scanning with the current item held separately (so the
recursion is structural in the remainder): rescue a short trailing capitalized
fragment from a bullet into the following title. After a rescue the scan moves
on to the rewritten title (`i += 1; continue`), which the recursion reflects by
making it the new current item. -/
def pass3Go : String → List String → List String
  | x, [] => [x]
  | x, y :: rest =>
    if is_bullet x && looks_like_project_title y then
      match fragSearch (rstripL x.data) with
      | some frag =>
        if !frag.isEmpty && !endsPunctStripped x then
          let trimmed0 := rstripL (takeBeforeFound x.data (pyRfind x.data frag))
          let trimmed : List Char := if dashEnd trimmed0 then rstripL trimmed0.dropLast else trimmed0
          (⟨trimmed⟩ : String) :: pass3Go (trimS ((⟨frag⟩ : String) ++ " " ++ y)) rest
        else x :: pass3Go y rest
      | none => x :: pass3Go y rest
    else x :: pass3Go y rest

def repair_pass3 : List String → List String
  | [] => []
  | x :: rest => pass3Go x rest

/-! ## The entry point -/

def split_and_merge (lines : List String) : Option (List String × List String) :=
  (mergePass lines).map fun r =>
    let sp := splitSections r.1
    (sp.1, repair_pass3 (repair_pass2 (repair_pass1 sp.2)))

/-! ## Concrete scenario inputs used by the claims -/

/-- Input of the spec's Scenario C. -/
def scenarioC : List String :=
  ["Projects", "- Built dashboard for metrics AnalyticsSuite", "Real-Time Monitor"]

/-- Input of the spec's Scenario A. -/
def scenarioA : List String :=
  ["Projects", "Suspicious", "Activity Detection", "- Built a model for X."]

/-- A line with two qualifying split points in the trailing-title window. -/
def C3line : String := "xx Alpha Beta Gamma"

/-- A projects list on which Repair Pass 2's output re-merges. -/
def C4list : List String := ["Alpha", "Beta", "Gamma", "Delta"]

/-- Adjacent-pair scan for the merge condition of Repair Pass 2. -/
def hasAdjMergeable : List String → Bool
  | x :: y :: rest => mergeable_titles x y || hasAdjMergeable (y :: rest)
  | _ => false

/-- An input on which a bullet line's content ends up concatenated onto a
preceding item: the merge pass glues four wrapped continuations onto the
bullet, Repair Pass 1 splits the 13-token item at the start of its candidate
window (leaving the bullet-derived prefix "- Ab Cd"), and Repair Pass 2 then
merges that prefix onto the preceding short title "Alpha". -/
def C5input : List String :=
  ["Projects", "Alpha", "- Ab Cd xx yy", "Ee Ff", "Gg Hh", "Ii Jj", "Kk Ll"]

/-- A projects line whose 121-character middle candidate fails the length
bound of the title test, so Repair Pass 1 splits off exactly the final two
tokens. -/
def C7noise : String :=
  "xx aaaaaaaaaaaaaaaaaaaaaaaaaaaaaaaaaaaaaaaaaaaaaaaaaaaaaaaaaaaaaaaaaaaaaaaaaaaaaaaaaaaaaaaaaaaaaaaaaaaaaaaaaaaa Education Tracker"

def C7input : List String := ["Projects", C7noise, "Education Tracker"]

/-- The merge-scan invariant: once a section is active, `merged` is nonempty
(at least the header line that activated the section is in it). This is what
keeps the experience branch's unguarded `merged[-1]` write reachable only with
a nonempty list. -/
def StInv (st : List String × Sect) : Prop := st.2 ≠ Sect.nosect → st.1 ≠ []

def isHeaderLine (s : String) : Bool :=
  matches_experience_headers s || matches_projects_headers s || matches_other_headers s

/-- The spec's reference definition of `looksLikeProjectTitle`, read literally:
same length, punctuation and word-count guards, but the stoplist test compares
the word itself (case-insensitively) against the stoplist, without the
source's stripping of surrounding `.,:;()[]`. -/
def spec_project_title_literal (text : String) : Bool :=
  let t := trimL text.data
  if t.length < 2 || 120 < t.length then false
  else if endsSentencePunct t then false
  else
    let ws := splitWsL t
    if !(decide (1 ≤ ws.length) && decide (ws.length ≤ 10)) then false
    else
      let sigs := ws.filter fun w => !(SMALL_WORDS.contains (toLowerL w))
      !sigs.isEmpty && decide (3 * sigs.length ≤ 5 * (sigs.countP fun w => isTitleCaseWord w))

/-- The reference definition amended by the counterexample: the stoplist test
uses the lowercased word stripped of surrounding `.,:;()[]`, exactly as the
code does. -/
def spec_project_title_amended (text : String) : Bool :=
  let t := trimL text.data
  if t.length < 2 || 120 < t.length then false
  else if endsSentencePunct t then false
  else
    let ws := splitWsL t
    if !(decide (1 ≤ ws.length) && decide (ws.length ≤ 10)) then false
    else
      let sigs := ws.filter fun w => !isSmallWordC w
      !sigs.isEmpty && decide (3 * sigs.length ≤ 5 * (sigs.countP fun w => isTitleCaseWord w))

/-! ## Theorems -/

/-- Claim C1, counterexample. On Scenario C's input the engine does not rescue
"AnalyticsSuite" into the following title: the claimed projects output is not
what `split_and_merge` returns. -/
theorem C1_counterexample :
    split_and_merge scenarioC ≠
      some ([], ["Built dashboard for metrics", "AnalyticsSuite Real-Time Monitor"]) := by
  decide

/-- Claim C1, amended. On Scenario C's input the merge pass glues
"Real-Time Monitor" onto the bullet (the trailing-title window never offers the
full wrapped line as a candidate), and Repair Pass 1 then splits the whole text
after the bullet glyph off as one valid title, leaving a bare "-" item; Repair
Pass 3 never fires. The projects output is
`["-", "Built dashboard for metrics AnalyticsSuite Real-Time Monitor"]`. -/
theorem C1_amended :
    split_and_merge scenarioC =
      some ([], ["-", "Built dashboard for metrics AnalyticsSuite Real-Time Monitor"]) := by
  decide

/-- Claim C2, counterexample. On Scenario A's input the bullet item keeps its
leading glyph and space: the claimed projects output (with the marker
stripped) is not what `split_and_merge` returns. -/
theorem C2_counterexample :
    split_and_merge scenarioA ≠
      some ([], ["Suspicious Activity Detection", "Built a model for X."]) := by
  decide

/-- Claim C2, amended. On Scenario A's input the two short title fragments are
merged into one item, and the bullet item appears with its bullet glyph and
following space intact (the engine never strips bullet markers): the projects
output is `["Suspicious Activity Detection", "- Built a model for X."]`. -/
theorem C2_amended :
    split_and_merge scenarioA =
      some ([], ["Suspicious Activity Detection", "- Built a model for X."]) := by
  decide

/-- Claim C3, counterexample. For `"xx Alpha Beta Gamma"` both candidate starts
1 and 2 qualify; the split with the longest prefix among them is
`("xx Alpha", "Beta Gamma")`, but the scan returns the first match from the
lowest start index, which is the split with the shortest prefix,
`("xx", "Alpha Beta Gamma")`. -/
theorem C3_counterexample :
    splitQualifies (pyTokens C3line) 1 = true ∧
    splitQualifies (pyTokens C3line) 2 = true ∧
    split_trailing_title_if_any C3line = ("xx", some "Alpha Beta Gamma") ∧
    split_trailing_title_if_any C3line ≠ ("xx Alpha", some "Beta Gamma") := by
  decide

/-- Claim C4, counterexample. One run of Repair Pass 2 over
`["Alpha", "Beta", "Gamma", "Delta"]` yields `["Alpha Beta", "Gamma Delta"]`,
whose two adjacent items again satisfy the short-title-merge predicate, so a
second run merges further: the pass is not idempotent on its own output. -/
theorem C4_counterexample :
    repair_pass2 C4list = ["Alpha Beta", "Gamma Delta"] ∧
    mergeable_titles "Alpha Beta" "Gamma Delta" = true ∧
    hasAdjMergeable (repair_pass2 C4list) = true ∧
    repair_pass2 (repair_pass2 C4list) ≠ repair_pass2 C4list := by
  decide

/-- Claim C5, counterexample. The input line "- Ab Cd xx yy" satisfies
`is_bullet`, yet in the final output no item begins with it: its derived item
"- Ab Cd" is concatenated onto the preceding item "Alpha" by Repair Pass 2. -/
theorem C5_counterexample :
    is_bullet "- Ab Cd xx yy" = true ∧
    split_and_merge C5input =
      some ([], ["Alpha - Ab Cd", "xx yy Ee Ff Gg Hh Ii Jj Kk Ll"]) ∧
    "Alpha - Ab Cd" = "Alpha" ++ " " ++ "- Ab Cd" := by
  decide

set_option maxRecDepth 8192 in
/-- Claim C7, counterexample. The input line "Education Tracker" matches the
Other-section header pattern and triggers a section switch, yet it appears
verbatim as an item of the projects output: Repair Pass 1 re-creates it by
splitting it off the tail of the preceding project line. -/
theorem C7_counterexample :
    matches_other_headers "Education Tracker" = true ∧
    "Education Tracker" ∈ C7input ∧
    split_and_merge C7input =
      some ([],
        ["xx aaaaaaaaaaaaaaaaaaaaaaaaaaaaaaaaaaaaaaaaaaaaaaaaaaaaaaaaaaaaaaaaaaaaaaaaaaaaaaaaaaaaaaaaaaaaaaaaaaaaaaaaaaaa",
         "Education Tracker"]) := by
  decide

/-! ## Totality of the engine (claim C6) -/

theorem append_cons_ne_nil (l : List String) (a : String) (r : List String) :
    l ++ (a :: r) ≠ [] := by simp

theorem bulletBranch_shape (merged : List String) (sect : Sect) (text : String) :
    ∃ new, new ≠ [] ∧ bulletBranch merged sect text = merged ++ new := by
  unfold bulletBranch
  split
  · split
    · exact ⟨_, by simp, rfl⟩
    · exact ⟨_, by simp, rfl⟩
  · exact ⟨_, by simp, rfl⟩

theorem projBranch_ne_nil (merged : List String) (text : String) :
    projBranch merged text ≠ [] := by
  unfold projBranch
  split
  · exact append_cons_ne_nil _ _ _
  · split
    · exact append_cons_ne_nil _ _ _
    · split
      · split
        · exact append_cons_ne_nil _ _ _
        · exact append_cons_ne_nil _ _ _
      · split
        · exact append_cons_ne_nil _ _ _
        · exact append_cons_ne_nil _ _ _

theorem expBranch_total (merged : List String) (text : String) (h : merged ≠ []) :
    ∃ m, expBranch merged text = some m ∧ m ≠ [] := by
  unfold expBranch
  split
  · exact ⟨_, rfl, append_cons_ne_nil _ _ _⟩
  · split
    · exact ⟨_, rfl, append_cons_ne_nil _ _ _⟩
    · rename_i hlast
      exact absurd (List.getLast?_eq_none_iff.mp hlast) h

theorem pyStep_total (st : List String × Sect) (raw : String) (h : StInv st) :
    ∃ st2, pyStep st raw = some st2 ∧ StInv st2 := by
  obtain ⟨merged, sect⟩ := st
  unfold StInv at h ⊢
  unfold pyStep
  dsimp only
  split
  · exact ⟨(merged, sect), rfl, h⟩
  · split
    · exact ⟨(merged, sect), rfl, h⟩
    · split
      · exact ⟨_, rfl, fun _ => append_cons_ne_nil _ _ _⟩
      · split
        · exact ⟨_, rfl, fun _ => append_cons_ne_nil _ _ _⟩
        · split
          · exact ⟨_, rfl, fun _ => append_cons_ne_nil _ _ _⟩
          · split
            · obtain ⟨new, hne, hshape⟩ := bulletBranch_shape merged sect (trimS raw)
              refine ⟨_, rfl, fun _ => ?_⟩
              dsimp only
              rw [hshape]
              intro hnil
              rcases new with _ | ⟨a, r⟩
              · exact hne rfl
              · exact append_cons_ne_nil merged a r hnil
            · split
              · exact ⟨_, rfl, fun _ => projBranch_ne_nil _ _⟩
              · split
                · rename_i hexp
                  have hsect : sect = Sect.exp := of_decide_eq_true hexp
                  obtain ⟨m, hm, hmne⟩ :=
                    expBranch_total merged (trimS raw) (h (by rw [hsect]; simp))
                  exact ⟨(m, sect), by rw [hm]; rfl, fun _ => hmne⟩
                · exact ⟨_, rfl, fun _ => append_cons_ne_nil _ _ _⟩

theorem mergeFold_total :
    ∀ (lines : List String) (st : List String × Sect), StInv st →
      ∃ r, List.foldlM pyStep st lines = some r ∧ StInv r
  | [], st, h => ⟨st, rfl, h⟩
  | l :: rest, st, h => by
    obtain ⟨st2, hst2, hinv2⟩ := pyStep_total st l h
    obtain ⟨r, hr, hinvr⟩ := mergeFold_total rest st2 hinv2
    refine ⟨r, ?_, hinvr⟩
    rw [List.foldlM_cons, hst2]
    exact hr

/-- Claim C6. `split_and_merge` is total: on every finite input list of lines
it returns `some` result (no branch of the merge loop can hit the one
modelled failure point, because an active section implies a nonempty `merged`
list), and on the empty input it returns the pair `([], [])`. -/
theorem C6_total :
    (∀ lines : List String, (split_and_merge lines).isSome = true) ∧
    split_and_merge ([] : List String) = some ([], []) := by
  constructor
  · intro lines
    obtain ⟨r, hr, _⟩ :=
      mergeFold_total lines ([], Sect.nosect) (fun hs => absurd rfl hs)
    unfold split_and_merge mergePass
    rw [hr]
    rfl
  · rfl

/-- Claim C5, amended. During the merge pass a bullet line does always start a
new logical item: the step on a bullet line appends one or two fresh items and
leaves every already-merged item untouched. (The counterexample shows this is
not preserved by the repair passes: pass 1 may split a bullet-derived item and
pass 2 may then merge its short prefix onto a preceding title.) -/
theorem C5_amended (merged : List String) (sect : Sect) (raw : String)
    (h0 : raw ≠ "") (h1 : trimS raw ≠ "")
    (h2 : matches_experience_headers (trimS raw) = false)
    (h3 : matches_projects_headers (trimS raw) = false)
    (h4 : matches_other_headers (trimS raw) = false)
    (h5 : is_bullet (trimS raw) = true) :
    ∃ new, new ≠ [] ∧ pyStep (merged, sect) raw = some (merged ++ new, sect) := by
  obtain ⟨new, hne, hshape⟩ := bulletBranch_shape merged sect (trimS raw)
  refine ⟨new, hne, ?_⟩
  unfold pyStep
  dsimp only
  simp [h0, h1, h2, h3, h4, h5, hshape]

/-- Witness for C5's amended claim at a concrete bullet line. -/
theorem C5_witness :
    ∃ new, new ≠ [] ∧
      pyStep (["Projects"], Sect.proj) "- item one" = some (["Projects"] ++ new, Sect.proj) :=
  C5_amended ["Projects"] Sect.proj "- item one" (by decide) (by decide) (by decide)
    (by decide) (by decide) (by decide)

/-- Claim C4, amended. Repair Pass 2 is the identity on every projects list
with no adjacent mergeable pair of short titles, hence idempotent on such
lists; in general (see the counterexample) the items it creates can form new
mergeable pairs, so a second run may merge further. -/
theorem C4_amended : ∀ l : List String, hasAdjMergeable l = false → repair_pass2 l = l
  | [], _ => rfl
  | [x], _ => rfl
  | x :: y :: rest, h => by
    have h1 : mergeable_titles x y = false := by
      cases hm : mergeable_titles x y
      · rfl
      · rw [hasAdjMergeable, hm] at h
        simp at h
    have h2 : hasAdjMergeable (y :: rest) = false := by
      rw [hasAdjMergeable, h1] at h
      simpa using h
    have ih := C4_amended (y :: rest) h2
    rw [repair_pass2, if_neg (by simp [h1]), ih]

/-- Witness for C4's amended claim at a concrete clean list. -/
theorem C4_witness :
    hasAdjMergeable ["Alpha", "bb"] = false ∧ repair_pass2 ["Alpha", "bb"] = ["Alpha", "bb"] :=
  ⟨by decide, C4_amended ["Alpha", "bb"] (by decide)⟩

/-- The scan of the trailing-title splitter returns the first qualifying
candidate start. -/
theorem splitGo_first (text : String) (toks : List String) :
    ∀ (k s i : Nat), i < k → splitQualifies toks (s + i) = true →
      (∀ j, j < i → splitQualifies toks (s + j) = false) →
      splitGo text toks s k = (tokPfx toks (s + i), some (tokCand toks (s + i)))
  | 0, _, i, hik, _, _ => absurd hik (Nat.not_lt_zero i)
  | k + 1, s, i, hik, hq, hprev => by
    rw [splitGo]
    rcases i with _ | i2
    · rw [if_pos]
      · simp
      · simpa using hq
    · rw [if_neg]
      · have hidx : s + (i2 + 1) = s + 1 + i2 := by omega
        rw [hidx]
        refine splitGo_first text toks k (s + 1) i2 (by omega) (by rw [← hidx]; exact hq) ?_
        intro j hj
        have hj2 : s + 1 + j = s + (j + 1) := by omega
        rw [hj2]
        exact hprev (j + 1) (by omega)
      · have h0 := hprev 0 (Nat.succ_pos i2)
        simpa using h0

/-- Claim C3, amended. When several split points in the candidate window each
yield a valid trailing title, `split_trailing_title_if_any` returns the first
match scanning candidate start indices from lowest to highest — that is, the
split with the shortest prefix and the longest valid trailing title among
them (not the longest prefix). -/
theorem C3_amended (text : String) (s : Nat)
    (hlo : (pyTokens text).length - 10 ≤ s)
    (hhi : s + 1 ≤ (pyTokens text).length - 1)
    (hq : splitQualifies (pyTokens text) s = true)
    (hmin : ∀ s2, (pyTokens text).length - 10 ≤ s2 → s2 < s →
      splitQualifies (pyTokens text) s2 = false) :
    split_trailing_title_if_any text =
      (tokPfx (pyTokens text) s, some (tokCand (pyTokens text) s)) := by
  unfold split_trailing_title_if_any
  dsimp only
  have hidx : s = ((pyTokens text).length - 10) + (s - ((pyTokens text).length - 10)) := by
    omega
  rw [hidx] at hq ⊢
  refine splitGo_first text (pyTokens text) _ _ _ (by omega) hq ?_
  intro j hj
  exact hmin (((pyTokens text).length - 10) + j) (by omega) (by omega)

/-- Witness for C3's amended claim at a line with two qualifying splits. -/
theorem C3_witness :
    split_trailing_title_if_any "xx Alpha Beta Gamma" = ("xx", some "Alpha Beta Gamma") := by
  have h := C3_amended "xx Alpha Beta Gamma" 1 (by decide) (by decide) (by decide)
    (fun s2 _ hs2 => by
      have hz : s2 = 0 := by omega
      subst hz
      decide)
  exact h.trans (by decide)

/-! ## Shape of the trailing-title splitter's result (claim C9) -/

theorem mem_of_getLast?_eq {l : List Char} {c : Char} (h : l.getLast? = some c) : c ∈ l := by
  have h2 : l.reverse.head? = some c := by rw [List.head?_reverse]; exact h
  cases hrev : l.reverse with
  | nil => rw [hrev] at h2; exact absurd h2 (by simp)
  | cons d r =>
    rw [hrev] at h2
    have hd : d = c := by simpa using h2
    refine List.mem_reverse.mp ?_
    rw [hrev]
    exact hd ▸ List.mem_cons_self d r

/-- Every token produced by the whitespace split is nonempty and free of
whitespace. -/
theorem splitWsAux_wf :
    ∀ (l cur : List Char), (∀ c ∈ cur, isWs c = false) →
      ∀ w ∈ splitWsAux l cur, w ≠ [] ∧ ∀ c ∈ w, isWs c = false
  | [], cur, hcur => by
    rw [splitWsAux]
    split
    · intro w hw
      exact absurd hw (List.not_mem_nil w)
    · rename_i hne
      intro w hw
      rcases List.mem_singleton.mp hw with rfl
      refine ⟨fun hnil => hne ?_, fun c hc => hcur c (List.mem_reverse.mp hc)⟩
      rw [List.reverse_eq_nil_iff] at hnil
      simp [hnil]
  | c :: rest, cur, hcur => by
    rw [splitWsAux]
    split
    · split
      · exact splitWsAux_wf rest [] (fun d hd => absurd hd (List.not_mem_nil d))
      · rename_i hne
        intro w hw
        rcases List.mem_cons.mp hw with rfl | hw2
        · refine ⟨fun hnil => hne ?_, fun d hd => hcur d (List.mem_reverse.mp hd)⟩
          rw [List.reverse_eq_nil_iff] at hnil
          simp [hnil]
        · exact splitWsAux_wf rest [] (fun d hd => absurd hd (List.not_mem_nil d)) w hw2
    · rename_i hws
      intro w hw
      refine splitWsAux_wf rest (c :: cur) ?_ w hw
      intro d hd
      rcases List.mem_cons.mp hd with rfl | hd2
      · simpa using hws
      · exact hcur d hd2

/-- Consuming one whitespace-free word at the head of the split. -/
theorem splitWsAux_append_word :
    ∀ (w : List Char), (∀ c ∈ w, isWs c = false) →
      ∀ (l cur : List Char), splitWsAux (w ++ l) cur = splitWsAux l (w.reverse ++ cur)
  | [], _, l, cur => by simp
  | c :: w2, hw, l, cur => by
    have hc : isWs c = false := hw c (List.mem_cons_self c w2)
    rw [List.cons_append, splitWsAux, if_neg (by simp [hc])]
    rw [splitWsAux_append_word w2 (fun d hd => hw d (List.mem_cons_of_mem c hd)) l (c :: cur)]
    congr 1
    simp

theorem joinWsL_ne_nil :
    ∀ (ws : List (List Char)), ws ≠ [] → (∀ w ∈ ws, w ≠ []) → joinWsL ws ≠ []
  | [], h, _ => absurd rfl h
  | [w], _, hw => by
    rw [joinWsL]
    exact hw w (List.mem_singleton.mpr rfl)
  | w :: w2 :: rest, _, hw => by
    rw [joinWsL]
    intro hnil
    rcases List.append_eq_nil.mp hnil with ⟨_, h2⟩
    exact List.cons_ne_nil _ _ h2

/-- Splitting is a left inverse of joining on lists of nonempty,
whitespace-free words. -/
theorem splitWs_join :
    ∀ (ws : List (List Char)), (∀ w ∈ ws, w ≠ [] ∧ ∀ c ∈ w, isWs c = false) →
      splitWsL (joinWsL ws) = ws
  | [], _ => rfl
  | [w], h => by
    obtain ⟨hne, hnws⟩ := h w (List.mem_singleton.mpr rfl)
    show splitWsL (joinWsL [w]) = [w]
    rw [joinWsL]
    unfold splitWsL
    have hstep := splitWsAux_append_word w hnws [] []
    rw [List.append_nil] at hstep
    rw [hstep, splitWsAux, if_neg, List.append_nil, List.reverse_reverse]
    simp [hne]
  | w :: w2 :: rest, h => by
    obtain ⟨hne, hnws⟩ := h w (List.mem_cons_self w _)
    have hrest : ∀ v ∈ w2 :: rest, v ≠ [] ∧ ∀ c ∈ v, isWs c = false :=
      fun v hv => h v (List.mem_cons_of_mem w hv)
    show splitWsL (joinWsL (w :: w2 :: rest)) = w :: w2 :: rest
    rw [joinWsL]
    unfold splitWsL
    rw [splitWsAux_append_word w hnws, splitWsAux, if_pos (by decide), if_neg,
      List.append_nil, List.reverse_reverse]
    · have ih := splitWs_join (w2 :: rest) hrest
      unfold splitWsL at ih
      rw [ih]
    · simp [hne]

theorem joinWs_head :
    ∀ (ws : List (List Char)), (∀ w ∈ ws, w ≠ [] ∧ ∀ c ∈ w, isWs c = false) →
      ∀ c, (joinWsL ws).head? = some c → isWs c = false
  | [], _, c, hc => by rw [joinWsL] at hc; exact absurd hc (by simp)
  | [w], h, c, hc => by
    rw [joinWsL] at hc
    obtain ⟨hne, hw⟩ := h w (List.mem_singleton.mpr rfl)
    rcases w with _ | ⟨d, w2⟩
    · exact absurd rfl hne
    · have hdc : d = c := by simpa using hc
      exact hdc ▸ hw d (List.mem_cons_self d w2)
  | w :: v :: rest, h, c, hc => by
    rw [joinWsL] at hc
    obtain ⟨hne, hw⟩ := h w (List.mem_cons_self w _)
    rcases w with _ | ⟨d, w2⟩
    · exact absurd rfl hne
    · rw [List.cons_append] at hc
      have hdc : d = c := by simpa using hc
      exact hdc ▸ hw d (List.mem_cons_self d w2)

theorem joinWs_last :
    ∀ (ws : List (List Char)), (∀ w ∈ ws, w ≠ [] ∧ ∀ c ∈ w, isWs c = false) →
      ∀ c, (joinWsL ws).getLast? = some c → isWs c = false
  | [], _, c, hc => by rw [joinWsL] at hc; exact absurd hc (by simp)
  | [w], h, c, hc => by
    rw [joinWsL] at hc
    obtain ⟨_, hw⟩ := h w (List.mem_singleton.mpr rfl)
    exact hw c (mem_of_getLast?_eq hc)
  | w :: v :: rest, h, c, hc => by
    rw [joinWsL] at hc
    have hrest : ∀ u ∈ v :: rest, u ≠ [] ∧ ∀ d ∈ u, isWs d = false :=
      fun u hu => h u (List.mem_cons_of_mem w hu)
    have hjoin_ne : joinWsL (v :: rest) ≠ [] :=
      joinWsL_ne_nil (v :: rest) (List.cons_ne_nil v rest) (fun u hu => (hrest u hu).1)
    rw [show (' ' :: joinWsL (v :: rest)) = [' '] ++ joinWsL (v :: rest) from rfl] at hc
    rw [List.getLast?_append_of_ne_nil _ (by simp),
      List.getLast?_append_of_ne_nil _ hjoin_ne] at hc
    exact joinWs_last (v :: rest) hrest c hc

theorem trimL_eq_self (l : List Char)
    (hhead : ∀ c, l.head? = some c → isWs c = false)
    (hlast : ∀ c, l.getLast? = some c → isWs c = false) :
    trimL l = l := by
  unfold trimL
  have h1 : l.dropWhile isWs = l := by
    cases l with
    | nil => rfl
    | cons c r =>
      rw [List.dropWhile_cons, if_neg]
      simp [hhead c rfl]
  rw [h1]
  have h2 : l.reverse.dropWhile isWs = l.reverse := by
    cases hrev : l.reverse with
    | nil => rfl
    | cons c r =>
      rw [List.dropWhile_cons, if_neg]
      have hlc : l.getLast? = some c := by rw [← List.head?_reverse, hrev]; rfl
      simp [hlast c hlc]
  rw [h2, List.reverse_reverse]

/-- The source's `_word_count` of a space-join of nonempty whitespace-free
words is the number of words. -/
theorem word_count_join (ws : List (List Char))
    (h : ∀ w ∈ ws, w ≠ [] ∧ ∀ c ∈ w, isWs c = false) :
    word_count (⟨joinWsL ws⟩ : String) = ws.length := by
  unfold word_count
  show (splitWsL (trimL (joinWsL ws))).length = ws.length
  rw [trimL_eq_self _ (joinWs_head ws h) (joinWs_last ws h), splitWs_join ws h]

theorem pyTokens_wf (text : String) :
    ∀ w ∈ (pyTokens text).map String.data, w ≠ [] ∧ ∀ c ∈ w, isWs c = false := by
  intro w hw
  unfold pyTokens at hw
  rw [List.map_map, show (String.data ∘ fun l => (⟨l⟩ : String)) = id from rfl,
    List.map_id] at hw
  exact splitWsAux_wf (trimL text.data) [] (fun d hd => absurd hd (List.not_mem_nil d)) w hw

/-- The scan of the splitter either returns the input unchanged, or stops at a
qualifying in-window start. -/
theorem splitGo_shape (text : String) (toks : List String) :
    ∀ (k s : Nat),
      splitGo text toks s k = (text, none) ∨
      ∃ s2, s ≤ s2 ∧ s2 + 1 ≤ s + k ∧ splitQualifies toks s2 = true ∧
        splitGo text toks s k = (tokPfx toks s2, some (tokCand toks s2))
  | 0, _ => Or.inl rfl
  | k + 1, s => by
    rw [splitGo]
    by_cases hq : splitQualifies toks s = true
    · exact Or.inr ⟨s, Nat.le_refl s, by omega, hq, by rw [if_pos hq]⟩
    · rw [if_neg hq]
      rcases splitGo_shape text toks k (s + 1) with hnone | ⟨s2, hs1, hs2, hq2, heq⟩
      · exact Or.inl hnone
      · exact Or.inr ⟨s2, by omega, by omega, hq2, heq⟩

/-- Claim C9. `split_trailing_title_if_any` either returns the original line
with no title, or a nonempty prefix and a title suffix of at least two
whitespace-separated tokens; a single trailing token is never split off. -/
theorem C9_split_shape (text : String) :
    split_trailing_title_if_any text = (text, none) ∨
      ∃ p t, split_trailing_title_if_any text = (p, some t) ∧ p ≠ "" ∧ 2 ≤ word_count t := by
  unfold split_trailing_title_if_any
  dsimp only
  rcases splitGo_shape text (pyTokens text)
      ((pyTokens text).length - 1 - ((pyTokens text).length - 10))
      ((pyTokens text).length - 10) with hnone | ⟨s2, hs1, hs2, hq, heq⟩
  · exact Or.inl hnone
  · refine Or.inr ⟨tokPfx (pyTokens text) s2, tokCand (pyTokens text) s2, heq, ?_, ?_⟩
    · have hpc := (Bool.and_eq_true _ _).mp hq
      exact of_decide_eq_true hpc.1
    · have hwf : ∀ w ∈ ((pyTokens text).drop s2).map String.data,
          w ≠ [] ∧ ∀ c ∈ w, isWs c = false := by
        intro w hw
        refine pyTokens_wf text w ?_
        rw [List.map_drop] at hw
        exact List.drop_subset s2 _ hw
      have hcount : word_count (tokCand (pyTokens text) s2) =
          ((pyTokens text).drop s2).length := by
        unfold tokCand joinTokens
        rw [word_count_join _ hwf, List.length_map]
      rw [hcount, List.length_drop]
      omega

/-! ## Header exclusion (claim C7) -/

/-- The section splitter consumes every header-matching line and emits only
non-header lines into the two buckets. -/
theorem splitSectionsGo_no_header :
    ∀ (merged : List String) (cur : Sect),
      (∀ x ∈ (splitSectionsGo cur merged).1, isHeaderLine x = false) ∧
      (∀ x ∈ (splitSectionsGo cur merged).2, isHeaderLine x = false)
  | [], cur =>
    ⟨fun x hx => absurd hx (List.not_mem_nil x),
      fun x hx => absurd hx (List.not_mem_nil x)⟩
  | line :: rest, cur => by
    rw [splitSectionsGo.eq_def]
    dsimp only
    by_cases h1 : matches_experience_headers line = true
    · rw [if_pos h1]
      exact splitSectionsGo_no_header rest Sect.exp
    · rw [if_neg h1]
      by_cases h2 : matches_projects_headers line = true
      · rw [if_pos h2]
        exact splitSectionsGo_no_header rest Sect.proj
      · rw [if_neg h2]
        by_cases h3 : matches_other_headers line = true
        · rw [if_pos h3]
          exact splitSectionsGo_no_header rest Sect.nosect
        · rw [if_neg h3]
          have e1 : matches_experience_headers line = false := by simpa using h1
          have e2 : matches_projects_headers line = false := by simpa using h2
          have e3 : matches_other_headers line = false := by simpa using h3
          have hline : isHeaderLine line = false := by simp [isHeaderLine, e1, e2, e3]
          cases cur with
          | exp =>
            obtain ⟨ih1, ih2⟩ := splitSectionsGo_no_header rest Sect.exp
            refine ⟨?_, ih2⟩
            intro x hx
            rcases List.mem_cons.mp hx with rfl | hx2
            · exact hline
            · exact ih1 x hx2
          | proj =>
            obtain ⟨ih1, ih2⟩ := splitSectionsGo_no_header rest Sect.proj
            refine ⟨ih1, ?_⟩
            intro x hx
            rcases List.mem_cons.mp hx with rfl | hx2
            · exact hline
            · exact ih2 x hx2
          | nosect => exact splitSectionsGo_no_header rest Sect.nosect

/-- Claim C7, amended. Header-matching lines never appear as items of the
experience output (for any input): the merge pass keeps them only as markers
and the section splitter consumes them. The projects output enjoys the same
property when it leaves the section splitter, but — as the counterexample
shows — Repair Pass 1 can later introduce an item equal to a header-matching
input line. -/
theorem C7_amended (lines : List String) (res : List String × List String)
    (h : split_and_merge lines = some res) :
    ∀ item ∈ res.1,
      matches_experience_headers item = false ∧ matches_projects_headers item = false ∧
        matches_other_headers item = false := by
  intro item hitem
  unfold split_and_merge at h
  rcases Option.map_eq_some'.mp h with ⟨r, hmerge, hres⟩
  have h1 : res.1 = (splitSections r.1).1 := by rw [← hres]
  rw [h1] at hitem
  have hhl := (splitSectionsGo_no_header r.1 Sect.nosect).1 item hitem
  unfold isHeaderLine at hhl
  simp only [Bool.or_eq_false_iff] at hhl
  exact ⟨hhl.1.1, hhl.1.2, hhl.2⟩

/-- Witness for C7's amended claim at a concrete input with a nonempty
experience output. -/
theorem C7_witness :
    matches_experience_headers "ACME CORP" = false ∧
      matches_projects_headers "ACME CORP" = false ∧
      matches_other_headers "ACME CORP" = false :=
  C7_amended ["Experience", "ACME CORP"] (["ACME CORP"], []) (by decide) "ACME CORP"
    (by decide)

/-! ## The project-title predicate against the spec wording (claim C8) -/

/-- The counting loop computes the sizes of the significant-word sublist and
of its title-cased part. -/
theorem titleCounts_eq (ws : List (List Char)) :
    titleCounts ws =
      ((ws.filter fun w => !isSmallWordC w).length,
       (ws.filter fun w => !isSmallWordC w).countP fun w => isTitleCaseWord w) := by
  induction ws with
  | nil => rfl
  | cons w rest ih =>
    by_cases hsw : isSmallWordC w = true
    · rw [titleCounts, if_pos hsw, ih, List.filter_cons, if_neg (by simp [hsw])]
    · have hsw2 : isSmallWordC w = false := by simpa using hsw
      have hkeep : (!isSmallWordC w) = true := by simp [hsw2]
      rw [titleCounts, if_neg hsw, ih, List.filter_cons, if_pos hkeep, List.countP_cons]
      simp

/-- Claim C8, counterexample. On the line `"(and) Alpha"` the code strips the
parentheses and drops `(and)` as a stoplist word, accepting the line, while
the spec's reference definition counts `(and)` as a significant non-title-
cased word and rejects it. -/
theorem C8_counterexample :
    looks_like_project_title "(and) Alpha" = true ∧
      spec_project_title_literal "(and) Alpha" = false := by
  decide

/-- Claim C8, amended. `looks_like_project_title` coincides, on every line,
with the spec's reference definition once its stoplist test is read as the
code's: membership is decided for the lowercased word stripped of surrounding
`.,:;()[]`. -/
theorem C8_amended (text : String) :
    looks_like_project_title text = spec_project_title_amended text := by
  unfold looks_like_project_title spec_project_title_amended
  dsimp only
  split_ifs <;> try rfl
  rw [titleCounts_eq]
  cases hfil : (splitWsL (trimL text.data)).filter (fun w => !isSmallWordC w) with
  | nil => simp
  | cons a r => simp

/-! ## A continuation glued onto an experience header is swallowed (claim C10) -/

/-- Gluing any text after `"Experience "` still matches the experience-header
pattern: the pattern is anchored at the start and tolerates trailing text. -/
theorem expHeader_append (t : String) :
    matches_experience_headers ("Experience " ++ t) = true := by
  obtain ⟨l⟩ := t
  have hdata : (("Experience " : String) ++ String.mk l).data = "Experience ".data ++ l := rfl
  unfold matches_experience_headers matchesVocabCI
  dsimp only
  rw [hdata]
  have hdrop : ("Experience ".data ++ l).dropWhile isWs = "Experience ".data ++ l := by
    rw [show "Experience ".data ++ l = 'E' :: ("xperience ".data ++ l) from rfl,
      List.dropWhile_cons, if_neg (by decide)]
  rw [hdrop]
  unfold toLowerL
  rw [List.map_append,
    show List.map Char.toLower "Experience ".data = "experience".data ++ [' '] from by decide,
    List.append_assoc]
  have h1 : ("experience".data ++ ([' '] ++ List.map Char.toLower l)).take
      ("experience" : String).data.length = "experience".data := List.take_left _ _
  have h2 : ("experience".data ++ ([' '] ++ List.map Char.toLower l)).drop
      ("experience" : String).data.length = ' ' :: List.map Char.toLower l := List.drop_left _ _
  unfold EXPERIENCE_VOCAB
  rw [List.any_cons]
  have hfirst :
      ((("experience".data ++ ([' '] ++ List.map Char.toLower l)).take
            ("experience" : String).data.length == ("experience" : String).data) &&
        headerBoundary (("experience".data ++ ([' '] ++ List.map Char.toLower l)).drop
            ("experience" : String).data.length)) = true := by
    rw [h1, h2]
    simp [headerBoundary, isWordChar]
  rw [hfirst]
  rfl

/-- Claim C10. While the Experience section is active with the header line
itself as the last merged entry, a line that is neither a bullet, nor any
header, nor job-header-like is space-joined onto the header entry; the
combined entry still matches the experience-header pattern, so the section
splitter consumes it as a header and the line reaches neither output list,
even though the active section was Experience. (Stated for the
representative header line `"Experience"`.) -/
theorem C10_header_swallows_continuation (line : String)
    (h0 : line ≠ "") (h1 : trimS line ≠ "")
    (h2 : matches_experience_headers (trimS line) = false)
    (h3 : matches_projects_headers (trimS line) = false)
    (h4 : matches_other_headers (trimS line) = false)
    (h5 : is_bullet (trimS line) = false)
    (h6 : looks_like_job_header (trimS line) = false) :
    mergePass ["Experience", line] = some (["Experience " ++ trimS line], Sect.exp) ∧
      matches_experience_headers ("Experience " ++ trimS line) = true ∧
      split_and_merge ["Experience", line] = some ([], []) := by
  have b0 : (line == "") = false := beq_eq_false_iff_ne.mpr h0
  have b1 : (trimS line == "") = false := beq_eq_false_iff_ne.mpr h1
  have hstep1 : pyStep ([], Sect.nosect) "Experience" = some (["Experience"], Sect.exp) := by
    decide
  have hstep2 : pyStep (["Experience"], Sect.exp) line =
      some (["Experience " ++ trimS line], Sect.exp) := by
    unfold pyStep expBranch
    dsimp only
    simp only [b0, b1, h2, h3, h4, h5, h6, Bool.false_eq_true, if_false,
      show (Sect.exp == Sect.proj) = false from rfl,
      show (Sect.exp == Sect.exp) = true from rfl, if_true]
    rfl
  have hmerge : mergePass ["Experience", line] =
      some (["Experience " ++ trimS line], Sect.exp) := by
    unfold mergePass
    rw [List.foldlM_cons, hstep1]
    show List.foldlM pyStep (["Experience"], Sect.exp) [line] = _
    rw [List.foldlM_cons, hstep2]
    rfl
  have hexpc : matches_experience_headers ("Experience " ++ trimS line) = true :=
    expHeader_append (trimS line)
  refine ⟨hmerge, hexpc, ?_⟩
  unfold split_and_merge
  rw [hmerge, Option.map_some']
  have hsplit : splitSections ["Experience " ++ trimS line] = ([], []) := by
    unfold splitSections
    rw [splitSectionsGo.eq_def]
    dsimp only
    rw [if_pos hexpc]
    rfl
  dsimp only
  rw [hsplit]
  rfl

/-- Witness for claim C10 at a concrete continuation line. -/
theorem C10_witness :
    mergePass ["Experience", "worked on various things"] =
        some (["Experience worked on various things"], Sect.exp) ∧
      matches_experience_headers "Experience worked on various things" = true ∧
      split_and_merge ["Experience", "worked on various things"] = some ([], []) := by
  have h := C10_header_swallows_continuation "worked on various things" (by decide) (by decide)
    (by decide) (by decide) (by decide) (by decide) (by decide)
  exact ⟨h.1.trans (by decide), by decide, h.2.2⟩
